import Mathlib

/-!
Verification of the Regency ceiling-fan remote decoder
(`src/devices/regency_fan.c`, entry point `regency_fan_decode`).

The bit buffer is embedded as a list of rows, each row a list of booleans in
wire order (index 0 is the first transmitted bit); a row's bit count is simply
its length.  The record handed to `decoder_output_data` is embedded as the
structure `data_t` below.  The helper functions of the surrounding project
(`bitbuffer_invert`, `bitbuffer_extract_bytes`, `reflect_bytes`,
`add_nibbles`) are not part of this device file; they are modelled from the
specification of the byte-normalization and checksum steps.
-/

namespace RegencyFan

/-- Modelled from the spec: `bitbuffer_invert` (bit-buffer service, not under
src/).  Inverts every bit of every row; bits beyond a row's bit count do not
exist in this embedding, matching the C code's masking of the padding bits. -/
def bitbuffer_invert (rows : List (List Bool)) : List (List Bool) :=
  rows.map (fun r => r.map not)

/-- MSB-first packing of up to eight bits into one byte: the first bit of the
list lands in bit 7, as the bit-buffer stores wire bits most significant
first. -/
def byte_of_bits (bits : List Bool) : Nat :=
  bits.foldl (fun acc b => 2 * acc + (if b then 1 else 0)) 0

/-- Modelled from the spec: `bitbuffer_extract_bytes` at bit offset 0 (bit-buffer
service, not under src/).  Packs the row's bits into `(len + 7) / 8` bytes,
first bit in the most significant position of the first byte, zero padding the
trailing bits of the last byte. -/
def bitbuffer_extract_bytes (bits : List Bool) : List Nat :=
  (List.range ((bits.length + 7) / 8)).map (fun j =>
    byte_of_bits ((List.range 8).map (fun k => bits.getD (8 * j + k) false)))

/-- Modelled from the spec: `reflect8` (utility library, not under src/).
Reverses the bit order within one byte: bit i becomes bit 7 - i. -/
def reflect8 (x : Nat) : Nat :=
  (List.range 8).foldl (fun acc i => acc + x / 2 ^ i % 2 * 2 ^ (7 - i)) 0

/-- Modelled from the spec: `reflect_bytes` (utility library, not under src/).
Reflects the bit order of every byte in the array. -/
def reflect_bytes (bytes : List Nat) : List Nat :=
  bytes.map reflect8

/-- Modelled from the spec: `add_nibbles` (utility library, not under src/).
Sums the high and the low 4-bit nibble of each of the first `num` bytes. -/
def add_nibbles (bytes : List Nat) (num : Nat) : Nat :=
  (bytes.take num).foldl (fun acc b => acc + b / 16 + b % 16) 0

/-- The byte-normalization step applied to one row in `regency_fan_decode`
(lines 99-101): extract the row's bits into bytes, then reflect each byte. -/
def normalize (row : List Bool) : List Nat :=
  reflect_bytes (bitbuffer_extract_bytes row)

/-- The table `command_names` of `regency_fan.c` (lines 44-61), indexed by the
4-bit command code. -/
def command_names : List String :=
  ["invalid", "fan_speed", "fan_speed", "invalid", "light_intensity",
   "light_delay", "fan_direction", "invalid", "invalid", "invalid", "invalid",
   "invalid", "invalid", "invalid", "invalid", "invalid"]

/-- One record passed to `data_make` / `decoder_output_data` (lines 152-159). -/
structure data_t where
  model : String
  type : String
  channel : Nat
  command : String
  value : String
  mic : String
  deriving DecidableEq

/-- The `switch (command)` of `regency_fan_decode` (lines 121-148) that fills
`value_string`.  `none` models the `continue` of the `default` case, which is
reached only when `debug_output > 1`; otherwise the `default` case merely
breaks and leaves `value_string` empty. -/
def value_string (debug_output : Int) (command value : Nat) : Option String :=
  if command = 1 then some "stop"
  else if command = 2 then some ("speed " ++ toString value)
  else if command = 4 then some (toString value ++ " %")
  else if command = 5 then some (if value = 0 then "off" else "on")
  else if command = 6 then
    some (if value = 7 then "clockwise" else "counter-clockwise")
  else if debug_output > 1 then none
  else some ""

/-- The body of the row loop of `regency_fan_decode` (lines 88-162) for one
row that has already been inverted: length gate (line 91), byte
normalization (lines 99-101), nibble-sum checksum gate (lines 104-111), field
decoding (lines 116-118), value formatting (lines 121-148) and record assembly
(lines 152-159).  `none` means the row is skipped by a `continue`. -/
def process_row (debug_output : Int) (row : List Bool) : Option data_t :=
  if row.length ≠ 20 then none
  else if add_nibbles (normalize row) 2 &&& 0x0f ≠ (normalize row).getD 2 0 then
    none
  else
    match value_string debug_output ((normalize row).getD 0 0 >>> 4)
        ((normalize row).getD 1 0) with
    | none => none
    | some vs =>
        some { model := "Regency-compatible Remote"
               type := "Ceiling Fan"
               channel := ((normalize row).getD 0 0 ^^^ 0xff) &&& 0x0f
               command := command_names.getD ((normalize row).getD 0 0 >>> 4) ""
               value := vs
               mic := "nibble_sum" }

/-- One iteration of the row loop at the accumulator level: the first
component is `return_code` (set to 1 whenever a record is emitted, line 150),
the second the list of records handed to `decoder_output_data` so far. -/
def decode_step (debug_output : Int) (acc : Int × List data_t)
    (row : List Bool) : Int × List data_t :=
  match process_row debug_output row with
  | some rec => (1, acc.2 ++ [rec])
  | none => acc

/-- `regency_fan_decode` (lines 63-166).  Returns the C return value, the list
of records handed to `decoder_output_data` (in emission order) and the final
contents of the caller's bit buffer: the function first rejects an empty
buffer (line 77), then inverts the buffer in place (line 85) and loops over
the rows (line 88). -/
def regency_fan_decode (debug_output : Int) (bitbuffer : List (List Bool)) :
    Int × List data_t × List (List Bool) :=
  if bitbuffer.length < 1 then (0, [], bitbuffer)
  else
    let inv := bitbuffer_invert bitbuffer
    let res := inv.foldl (decode_step debug_output) (0, [])
    (res.1, res.2, inv)

/-- The array `output_fields` of `regency_fan.c` (lines 175-184), the fixed
field ordering list consumed by the CSV output sink. -/
def output_fields : List String :=
  ["model", "device_id", "device_id_hex", "counter", "counter_hex", "id_bits",
   "button_pressed"]

/-- The field names passed to `data_make` in `regency_fan_decode`
(lines 152-159), i.e. the names present in every emitted record. -/
def data_make_fields : List String :=
  ["model", "type", "channel", "command", "value", "mic"]

/-- One byte of the Byte Normalizer as the spec words it: the wire transmits
least-significant-bit first, so after packing and in-byte reflection the k-th
wire bit of a byte carries weight 2 ^ k; missing bits are zero padding. -/
def spec_byte (bits : List Bool) : Nat :=
  ((List.range 8).map (fun k => if bits.getD k false then 2 ^ k else 0)).sum

/-- The Byte Normalizer of a 20-bit row as the spec words it: three bytes,
byte j built from wire bits 8 j .. 8 j + 7, the last byte zero padded. -/
def normalize_spec (row : List Bool) : List Nat :=
  [spec_byte (row.take 8), spec_byte ((row.drop 8).take 8),
   spec_byte (row.drop 16)]

/-- A concrete well-formed input row (pre-inversion wire bits) that decodes to
command 2 (fan_speed), channel 5, value 7: after inversion it normalizes to
the bytes 0x2A 0x07 0x03, whose nibble sum 2 + 10 + 0 + 7 masks to 3. -/
def validRow : List Bool :=
  [true, false, true, false, true, false, true, true,
   false, false, false, true, true, true, true, true,
   false, false, true, true]

/-- The image of `validRow` under `bitbuffer_invert`, i.e. the row as the row
loop sees it. -/
def validRowInv : List Bool :=
  [false, true, false, true, false, true, false, false,
   true, true, true, false, false, false, false, false,
   true, true, false, false]

/-- The record that `validRow` decodes to. -/
def validRecord : data_t :=
  { model := "Regency-compatible Remote"
    type := "Ceiling Fan"
    channel := 5
    command := "fan_speed"
    value := "speed 7"
    mic := "nibble_sum" }

/-! ## General lemmas about the decode loop -/

theorem foldl_decode_snd (d : Int) (rows : List (List Bool))
    (acc : Int × List data_t) :
    (rows.foldl (decode_step d) acc).2 =
      acc.2 ++ rows.filterMap (process_row d) := by
  induction rows generalizing acc with
  | nil => simp
  | cons r rs ih =>
      cases h : process_row d r <;>
        simp [decode_step, h, ih, List.filterMap_cons]

theorem foldl_decode_fst (d : Int) (rows : List (List Bool))
    (acc : Int × List data_t) :
    (rows.foldl (decode_step d) acc).1 =
      if rows.filterMap (process_row d) = [] then acc.1 else 1 := by
  induction rows generalizing acc with
  | nil => simp
  | cons r rs ih =>
      cases h : process_row d r <;>
        simp [decode_step, h, ih, List.filterMap_cons]

theorem decode_records (d : Int) (bb : List (List Bool)) :
    (regency_fan_decode d bb).2.1 =
      (bitbuffer_invert bb).filterMap (process_row d) := by
  cases bb with
  | nil => simp [regency_fan_decode, bitbuffer_invert]
  | cons r rs => simp [regency_fan_decode, foldl_decode_snd]

theorem decode_rc (d : Int) (bb : List (List Bool)) :
    (regency_fan_decode d bb).1 =
      if (bitbuffer_invert bb).filterMap (process_row d) = [] then 0 else 1 := by
  cases bb with
  | nil => simp [regency_fan_decode, bitbuffer_invert]
  | cons r rs => simp [regency_fan_decode, foldl_decode_fst]

theorem decode_buf (d : Int) (bb : List (List Bool)) (h : 1 ≤ bb.length) :
    (regency_fan_decode d bb).2.2 = bitbuffer_invert bb := by
  have hlt : ¬ bb.length < 1 := by omega
  simp [regency_fan_decode, hlt]

/-! ## Inversion of a successful row -/

theorem process_row_some (d : Int) (r : List Bool) (rec : data_t)
    (h : process_row d r = some rec) :
    r.length = 20 ∧
    add_nibbles (normalize r) 2 &&& 15 = (normalize r).getD 2 0 ∧
    value_string d ((normalize r).getD 0 0 >>> 4) ((normalize r).getD 1 0) =
      some rec.value ∧
    rec.model = "Regency-compatible Remote" ∧
    rec.type = "Ceiling Fan" ∧
    rec.channel = ((normalize r).getD 0 0 ^^^ 255) &&& 15 ∧
    rec.command = command_names.getD ((normalize r).getD 0 0 >>> 4) "" ∧
    rec.mic = "nibble_sum" := by
  unfold process_row at h
  split at h
  · exact absurd h (by simp)
  next hlen =>
    split at h
    · exact absurd h (by simp)
    next hck =>
      cases hv : value_string d ((normalize r).getD 0 0 >>> 4)
          ((normalize r).getD 1 0) with
      | none => rw [hv] at h; exact absurd h (by simp)
      | some vs =>
          rw [hv] at h
          have hrec := (Option.some.injEq _ _).mp h
          subst hrec
          refine ⟨by omega, by omega, rfl, rfl, rfl, rfl, rfl, rfl⟩

/-! ## Arithmetic facts about the modelled byte helpers -/

theorem reflect8_lt (x : Nat) : reflect8 x < 256 := by
  have h : ∀ i, x / 2 ^ i % 2 ≤ 1 := fun i =>
    Nat.le_of_lt_succ (Nat.mod_lt _ (by norm_num))
  have h0 := h 0; have h1 := h 1; have h2 := h 2; have h3 := h 3
  have h4 := h 4; have h5 := h 5; have h6 := h 6; have h7 := h 7
  simp only [reflect8, List.range_succ, List.range_zero, List.foldl_append,
    List.foldl_cons, List.foldl_nil]
  omega

theorem and15_eq_mod : ∀ x < 64, x &&& 15 = x % 16 := by decide

set_option maxRecDepth 10000 in
theorem compl_nibble : ∀ b < 256, (b ^^^ 255) &&& 15 = 15 - b % 16 := by decide

theorem spec_byte_eq8 : ∀ b0 b1 b2 b3 b4 b5 b6 b7 : Bool,
    reflect8 (byte_of_bits [b0, b1, b2, b3, b4, b5, b6, b7]) =
      spec_byte [b0, b1, b2, b3, b4, b5, b6, b7] := by decide

theorem spec_byte_eq4 : ∀ b0 b1 b2 b3 : Bool,
    reflect8 (byte_of_bits [b0, b1, b2, b3, false, false, false, false]) =
      spec_byte [b0, b1, b2, b3] := by decide

theorem byte2_lt : ∀ b0 b1 b2 b3 : Bool,
    reflect8 (byte_of_bits [b0, b1, b2, b3, false, false, false, false]) < 16 := by
  decide

theorem getD_lt_of_forall {l : List Nat} {i : Nat}
    (h : ∀ b ∈ l, b < 256) : l.getD i 0 < 256 := by
  induction l generalizing i with
  | nil => simp [List.getD_nil]
  | cons a t ih =>
      cases i with
      | zero => simpa using h a (by simp)
      | succ j => simpa using ih (fun b hb => h b (by simp [hb]))

theorem normalize_getD_lt (row : List Bool) (i : Nat) :
    (normalize row).getD i 0 < 256 := by
  apply getD_lt_of_forall
  intro b hb
  simp only [normalize, reflect_bytes] at hb
  obtain ⟨y, hy, rfl⟩ := List.mem_map.mp hb
  exact reflect8_lt y

theorem map_fix {α : Type} {f : α → α} :
    ∀ l : List α, l.map f = l → ∀ a ∈ l, f a = a := by
  intro l
  induction l with
  | nil => simp
  | cons x t ih =>
      intro h a ha
      simp only [List.map_cons, List.cons.injEq] at h
      rcases List.mem_cons.mp ha with rfl | ha
      · exact h.1
      · exact ih h.2 a ha

/-! ## Claim theorems -/

/-- C1: the claim says a row passing length and checksum whose command code is
in 0, 3, 7-15 never produces a record, at every verbosity of the caller.  The
code violates this: the `continue` of the `default` switch case sits inside
the `if (debug_output > 1)` diagnostic block, so at verbosity 0 a row whose
twenty wire bits are all ones (it inverts to bytes 00 00 00, passes the
checksum, and carries command code 0) is emitted as a record with category
"invalid" and an empty value string, and the decoder returns 1.  Only at
verbosity above 1 is the row skipped as the claim demands. -/
theorem claim1_unknown_command_emits_record :
    regency_fan_decode 0 [List.replicate 20 true] =
      (1, [{ model := "Regency-compatible Remote", type := "Ceiling Fan",
             channel := 15, command := "invalid", value := "",
             mic := "nibble_sum" }], [List.replicate 20 false]) ∧
    regency_fan_decode 3 [List.replicate 20 true] =
      (0, [], [List.replicate 20 false]) :=
  ⟨by decide, by decide⟩

/-- C3: a record is only constructed for rows whose bit count is 20 and whose
checksum comparison passed: every record in the output of
`regency_fan_decode` comes from some (inverted) row of length 20 whose
nibble-sum checksum equals the stored check byte. -/
theorem claim3_records_only_for_validated_rows (d : Int)
    (bb : List (List Bool)) (rec : data_t)
    (h : rec ∈ (regency_fan_decode d bb).2.1) :
    ∃ row ∈ bitbuffer_invert bb, row.length = 20 ∧
      add_nibbles (normalize row) 2 &&& 15 = (normalize row).getD 2 0 ∧
      process_row d row = some rec := by
  rw [decode_records] at h
  obtain ⟨row, hrow, hpr⟩ := List.mem_filterMap.mp h
  obtain ⟨hlen, hck, -, -, -, -, -, -⟩ := process_row_some d row rec hpr
  exact ⟨row, hrow, hlen, hck, hpr⟩

/-- Witness for C3 at the concrete one-row batch `validRow`. -/
theorem claim3_witness :
    ∃ row ∈ bitbuffer_invert [validRow], row.length = 20 ∧
      add_nibbles (normalize row) 2 &&& 15 = (normalize row).getD 2 0 ∧
      process_row 0 row = some validRecord :=
  claim3_records_only_for_validated_rows 0 [validRow] validRecord (by decide)

/-- C5: the value-string renderings of the command formatter, for every value
byte and every verbosity: command 1 renders exactly "stop", command 2 renders
"speed " followed by the decimal value, command 4 renders the decimal value
followed by " %", command 5 renders "off" exactly when the value is 0 and
"on" otherwise, command 6 renders "clockwise" exactly when the value is 0x07
and "counter-clockwise" otherwise (both exact-match comparisons). -/
theorem claim5_value_string_rendering (d : Int) (value : Nat) :
    value_string d 1 value = some "stop" ∧
    value_string d 2 value = some ("speed " ++ toString value) ∧
    value_string d 4 value = some (toString value ++ " %") ∧
    value_string d 5 value = some (if value = 0 then "off" else "on") ∧
    value_string d 6 value =
      some (if value = 7 then "clockwise" else "counter-clockwise") :=
  ⟨rfl, rfl, rfl, rfl, rfl⟩

/-- C6: for every row that passes the checksum, the emitted record's fields
come from the normalized bytes: the channel is the bitwise complement of byte
0's low nibble (in particular in the range 0..15), the command string is the
`command_names` entry at index byte 0 shifted right by 4, and the value string
is rendered from byte 1 taken as a full byte (below 256). -/
theorem claim6_field_decoding (d : Int) (row : List Bool) (rec : data_t)
    (h : process_row d row = some rec) :
    rec.channel = ((normalize row).getD 0 0 ^^^ 255) &&& 15 ∧
    rec.channel = 15 - (normalize row).getD 0 0 % 16 ∧
    rec.channel ≤ 15 ∧
    rec.command = command_names.getD ((normalize row).getD 0 0 >>> 4) "" ∧
    value_string d ((normalize row).getD 0 0 >>> 4) ((normalize row).getD 1 0) =
      some rec.value ∧
    (normalize row).getD 1 0 < 256 := by
  obtain ⟨-, -, hv, -, -, hch, hcmd, -⟩ := process_row_some d row rec h
  have hb0 : (normalize row).getD 0 0 < 256 := normalize_getD_lt row 0
  refine ⟨hch, ?_, ?_, hcmd, hv, normalize_getD_lt row 1⟩
  · rw [hch]; exact compl_nibble _ hb0
  · rw [hch]; exact Nat.and_le_right

/-- Witness for C6 at the concrete valid row. -/
theorem claim6_witness :
    validRecord.channel = ((normalize validRowInv).getD 0 0 ^^^ 255) &&& 15 ∧
    validRecord.channel = 15 - (normalize validRowInv).getD 0 0 % 16 ∧
    validRecord.channel ≤ 15 ∧
    validRecord.command =
      command_names.getD ((normalize validRowInv).getD 0 0 >>> 4) "" ∧
    value_string 0 ((normalize validRowInv).getD 0 0 >>> 4)
      ((normalize validRowInv).getD 1 0) = some validRecord.value ∧
    (normalize validRowInv).getD 1 0 < 256 :=
  claim6_field_decoding 0 validRowInv validRecord (by decide)

/-- C7: the decode entry point returns 1 exactly when at least one row
produced a record and 0 exactly when none did; an empty batch yields zero
records and the failure return value. -/
theorem claim7_return_code_iff_record (d : Int) (bb : List (List Bool)) :
    ((regency_fan_decode d bb).1 = 1 ↔ (regency_fan_decode d bb).2.1 ≠ []) ∧
    ((regency_fan_decode d bb).1 = 0 ↔ (regency_fan_decode d bb).2.1 = []) ∧
    regency_fan_decode d [] = (0, [], []) := by
  have hr := decode_records d bb
  have hc := decode_rc d bb
  by_cases hFM : (bitbuffer_invert bb).filterMap (process_row d) = [] <;>
    rw [hc, hr] <;> simp [hFM, regency_fan_decode]



/-- C2: the byte normalization of a validated 20-bit row is exactly: pack the
20 bits into 3 bytes, zero padding the last byte, and reverse the bit order
within each byte (wire bit 0 of a byte becomes its least significant bit).
Stated over all 2 ^ 20 rows via twenty boolean binders; the step is a total
function producing exactly three bytes, each below 256. -/
theorem claim2_normalizer_refines_spec
    (a0 a1 a2 a3 a4 a5 a6 a7 a8 a9 a10 a11 a12 a13 a14 a15 a16 a17 a18 a19 :
      Bool) :
    normalize [a0, a1, a2, a3, a4, a5, a6, a7, a8, a9, a10, a11, a12, a13,
        a14, a15, a16, a17, a18, a19] =
      normalize_spec [a0, a1, a2, a3, a4, a5, a6, a7, a8, a9, a10, a11, a12,
        a13, a14, a15, a16, a17, a18, a19] ∧
    (normalize [a0, a1, a2, a3, a4, a5, a6, a7, a8, a9, a10, a11, a12, a13,
        a14, a15, a16, a17, a18, a19]).length = 3 ∧
    ∀ b ∈ normalize [a0, a1, a2, a3, a4, a5, a6, a7, a8, a9, a10, a11, a12,
        a13, a14, a15, a16, a17, a18, a19], b < 256 := by
  have hnorm : normalize [a0, a1, a2, a3, a4, a5, a6, a7, a8, a9, a10, a11,
      a12, a13, a14, a15, a16, a17, a18, a19] =
      [reflect8 (byte_of_bits [a0, a1, a2, a3, a4, a5, a6, a7]),
       reflect8 (byte_of_bits [a8, a9, a10, a11, a12, a13, a14, a15]),
       reflect8 (byte_of_bits [a16, a17, a18, a19, false, false, false,
         false])] := by
    simp [normalize, bitbuffer_extract_bytes, reflect_bytes, List.range_succ]
  have hspec : normalize_spec [a0, a1, a2, a3, a4, a5, a6, a7, a8, a9, a10,
      a11, a12, a13, a14, a15, a16, a17, a18, a19] =
      [spec_byte [a0, a1, a2, a3, a4, a5, a6, a7],
       spec_byte [a8, a9, a10, a11, a12, a13, a14, a15],
       spec_byte [a16, a17, a18, a19]] := rfl
  refine ⟨?_, ?_, ?_⟩
  · rw [hnorm, hspec, spec_byte_eq8, spec_byte_eq8, spec_byte_eq4]
  · rw [hnorm]; rfl
  · rw [hnorm]
    intro b hb
    rcases List.mem_cons.mp hb with rfl | hb
    · exact reflect8_lt _
    rcases List.mem_cons.mp hb with rfl | hb
    · exact reflect8_lt _
    rcases List.mem_cons.mp hb with rfl | hb
    · exact reflect8_lt _
    · simp at hb

/-- Witness for C2 at the bits of the concrete valid (inverted) row. -/
theorem claim2_witness :
    normalize validRowInv = normalize_spec validRowInv ∧
    (normalize validRowInv).length = 3 ∧
    ∀ b ∈ normalize validRowInv, b < 256 :=
  claim2_normalizer_refines_spec false true false true false true false false
    true true true false false false false false true true false false

/-- C4: for every normalized 3-byte frame coming from a 20-bit row, the
expected checksum is the sum of the four nibbles of the first two bytes
masked to 4 bits, and it is compared against the low nibble of the third byte
(the third byte's high nibble is always zero, so the code's comparison with
the whole byte is the same comparison); on mismatch the row is rejected and
the loop continues with the next row, leaving the accumulated state
unchanged. -/
theorem claim4_checksum_gate (d : Int) (rest : List (List Bool))
    (a0 a1 a2 a3 a4 a5 a6 a7 a8 a9 a10 a11 a12 a13 a14 a15 a16 a17 a18 a19 :
      Bool) :
    (normalize [a0, a1, a2, a3, a4, a5, a6, a7, a8, a9, a10, a11, a12, a13,
        a14, a15, a16, a17, a18, a19]).getD 2 0 < 16 ∧
    ((add_nibbles (normalize [a0, a1, a2, a3, a4, a5, a6, a7, a8, a9, a10,
        a11, a12, a13, a14, a15, a16, a17, a18, a19]) 2 &&& 15 =
        (normalize [a0, a1, a2, a3, a4, a5, a6, a7, a8, a9, a10, a11, a12,
          a13, a14, a15, a16, a17, a18, a19]).getD 2 0) ↔
      add_nibbles (normalize [a0, a1, a2, a3, a4, a5, a6, a7, a8, a9, a10,
        a11, a12, a13, a14, a15, a16, a17, a18, a19]) 2 % 16 =
        (normalize [a0, a1, a2, a3, a4, a5, a6, a7, a8, a9, a10, a11, a12,
          a13, a14, a15, a16, a17, a18, a19]).getD 2 0 % 16) ∧
    (add_nibbles (normalize [a0, a1, a2, a3, a4, a5, a6, a7, a8, a9, a10,
        a11, a12, a13, a14, a15, a16, a17, a18, a19]) 2 % 16 ≠
        (normalize [a0, a1, a2, a3, a4, a5, a6, a7, a8, a9, a10, a11, a12,
          a13, a14, a15, a16, a17, a18, a19]).getD 2 0 % 16 →
      process_row d [a0, a1, a2, a3, a4, a5, a6, a7, a8, a9, a10, a11, a12,
        a13, a14, a15, a16, a17, a18, a19] = none ∧
      ([a0, a1, a2, a3, a4, a5, a6, a7, a8, a9, a10, a11, a12, a13, a14, a15,
        a16, a17, a18, a19] :: rest).foldl (decode_step d) (0, []) =
        rest.foldl (decode_step d) (0, [])) := by
  have hnorm : normalize [a0, a1, a2, a3, a4, a5, a6, a7, a8, a9, a10, a11,
      a12, a13, a14, a15, a16, a17, a18, a19] =
      [reflect8 (byte_of_bits [a0, a1, a2, a3, a4, a5, a6, a7]),
       reflect8 (byte_of_bits [a8, a9, a10, a11, a12, a13, a14, a15]),
       reflect8 (byte_of_bits [a16, a17, a18, a19, false, false, false,
         false])] := by
    simp [normalize, bitbuffer_extract_bytes, reflect_bytes, List.range_succ]
  have hb2 : (normalize [a0, a1, a2, a3, a4, a5, a6, a7, a8, a9, a10, a11,
      a12, a13, a14, a15, a16, a17, a18, a19]).getD 2 0 < 16 := by
    rw [hnorm]; exact byte2_lt a16 a17 a18 a19
  have hcs : add_nibbles (normalize [a0, a1, a2, a3, a4, a5, a6, a7, a8, a9,
      a10, a11, a12, a13, a14, a15, a16, a17, a18, a19]) 2 < 64 := by
    rw [hnorm]
    have h0 := reflect8_lt (byte_of_bits [a0, a1, a2, a3, a4, a5, a6, a7])
    have h1 := reflect8_lt (byte_of_bits [a8, a9, a10, a11, a12, a13, a14,
      a15])
    simp only [add_nibbles, List.take_succ_cons, List.take_zero,
      List.foldl_cons, List.foldl_nil]
    omega
  have hmask := and15_eq_mod _ hcs
  have hmod : (normalize [a0, a1, a2, a3, a4, a5, a6, a7, a8, a9, a10, a11,
      a12, a13, a14, a15, a16, a17, a18, a19]).getD 2 0 % 16 =
      (normalize [a0, a1, a2, a3, a4, a5, a6, a7, a8, a9, a10, a11, a12, a13,
        a14, a15, a16, a17, a18, a19]).getD 2 0 := Nat.mod_eq_of_lt hb2
  refine ⟨hb2, by rw [hmask, hmod], ?_⟩
  intro hne
  have hckne : add_nibbles (normalize [a0, a1, a2, a3, a4, a5, a6, a7, a8,
      a9, a10, a11, a12, a13, a14, a15, a16, a17, a18, a19]) 2 &&& 15 ≠
      (normalize [a0, a1, a2, a3, a4, a5, a6, a7, a8, a9, a10, a11, a12, a13,
        a14, a15, a16, a17, a18, a19]).getD 2 0 := by
    rw [hmask]; rw [hmod] at hne; exact hne
  have hpr : process_row d [a0, a1, a2, a3, a4, a5, a6, a7, a8, a9, a10, a11,
      a12, a13, a14, a15, a16, a17, a18, a19] = none := by
    unfold process_row
    rw [if_neg (by simp), if_pos hckne]
  exact ⟨hpr, by simp [List.foldl_cons, decode_step, hpr]⟩

/-- Witness for C4 at a concrete corrupted row: the single one bit yields
bytes 01 00 00, whose nibble sum 1 differs from the stored check nibble 0, so
the row is rejected and the loop state is untouched. -/
theorem claim4_witness :
    (normalize [true, false, false, false, false, false, false, false, false,
        false, false, false, false, false, false, false, false, false, false,
        false]).getD 2 0 < 16 ∧
    ((add_nibbles (normalize [true, false, false, false, false, false, false,
        false, false, false, false, false, false, false, false, false, false,
        false, false, false]) 2 &&& 15 =
        (normalize [true, false, false, false, false, false, false, false,
          false, false, false, false, false, false, false, false, false,
          false, false, false]).getD 2 0) ↔
      add_nibbles (normalize [true, false, false, false, false, false, false,
        false, false, false, false, false, false, false, false, false, false,
        false, false, false]) 2 % 16 =
        (normalize [true, false, false, false, false, false, false, false,
          false, false, false, false, false, false, false, false, false,
          false, false, false]).getD 2 0 % 16) ∧
    (add_nibbles (normalize [true, false, false, false, false, false, false,
        false, false, false, false, false, false, false, false, false, false,
        false, false, false]) 2 % 16 ≠
        (normalize [true, false, false, false, false, false, false, false,
          false, false, false, false, false, false, false, false, false,
          false, false, false]).getD 2 0 % 16 →
      process_row 0 [true, false, false, false, false, false, false, false,
        false, false, false, false, false, false, false, false, false, false,
        false, false] = none ∧
      ([true, false, false, false, false, false, false, false, false, false,
        false, false, false, false, false, false, false, false, false,
        false] :: []).foldl (decode_step 0) (0, []) =
        ([] : List (List Bool)).foldl (decode_step 0) (0, [])) :=
  claim4_checksum_gate 0 [] true false false false false false false false
    false false false false false false false false false false false false

/-- C8: rows are processed independently and statelessly: the list of emitted
records is a per-row filter-map, so the record (or absence of one) a given
row contributes is a function of that row alone, unaffected by the content,
length or validity of the other rows; concretely, a batch of one valid row
and one malformed (2-bit) row yields exactly one record and overall success,
at low and at high verbosity. -/
theorem claim8_rows_independent (d : Int) (bb : List (List Bool)) :
    (regency_fan_decode d bb).2.1 =
      bb.filterMap (fun row => process_row d (row.map not)) ∧
    regency_fan_decode 0 [validRow, [true, true]] =
      (1, [validRecord], [validRowInv, [false, false]]) ∧
    regency_fan_decode 3 [validRow, [true, true]] =
      (1, [validRecord], [validRowInv, [false, false]]) := by
  refine ⟨?_, by decide, by decide⟩
  rw [decode_records]
  simp only [bitbuffer_invert, List.filterMap_map]
  rfl

/-- C9: the claim says every field name emitted in a record (model, type,
channel, command, value, mic) appears in the decoder's pre-declared
`output_fields` list.  The code violates this: `output_fields` declares
model, device_id, device_id_hex, counter, counter_hex, id_bits and
button_pressed, so of the six emitted names only "model" is declared; the
other five are missing, contradicting the comment above `output_fields` that
it lists the fields that may appear in the output. -/
theorem claim9_emitted_fields_missing :
    "model" ∈ output_fields ∧
    ∀ f ∈ ["type", "channel", "command", "value", "mic"],
      f ∈ data_make_fields ∧ f ∉ output_fields := by decide

/-- C10 as stated is false at the boundary: a batch consisting of one row of
zero bits has at least one row, yet `regency_fan_decode` leaves the buffer
unchanged (there is no bit to invert), produces no record, and returns 0 --
so such an input is left unchanged, contrary to the claim's consequence. -/
theorem claim10_counterexample_empty_row :
    regency_fan_decode 0 [([] : List Bool)] =
      (0, [], [([] : List Bool)]) := by decide

/-- C10 (amended): for every batch with at least one row, the decoder mutates
the caller's buffer by replacing it with its bitwise inversion (every bit of
every row flipped) before any row is examined; whenever some row contains at
least one bit, the buffer therefore differs from the input, even when no row
decodes and no record is produced. -/
theorem claim10_buffer_inverted (d : Int) (bb : List (List Bool))
    (h : 1 ≤ bb.length) :
    (regency_fan_decode d bb).2.2 = bitbuffer_invert bb ∧
    ((∃ r ∈ bb, r ≠ []) → (regency_fan_decode d bb).2.2 ≠ bb) := by
  refine ⟨decode_buf d bb h, ?_⟩
  rintro ⟨r, hr, hne⟩ heq
  rw [decode_buf d bb h] at heq
  have heqm : bb.map (fun row => row.map not) = bb := heq
  have hfix := map_fix bb heqm r hr
  cases r with
  | nil => exact hne rfl
  | cons b t =>
      simp only [List.map_cons, List.cons.injEq] at hfix
      cases b <;> simp at hfix

/-- Witness for the amended C10 at the concrete one-row batch `validRow`. -/
theorem claim10_witness :
    1 ≤ ([validRow] : List (List Bool)).length ∧
    ((regency_fan_decode 0 [validRow]).2.2 = bitbuffer_invert [validRow] ∧
      ((∃ r ∈ [validRow], r ≠ []) →
        (regency_fan_decode 0 [validRow]).2.2 ≠ [validRow])) :=
  ⟨by decide, claim10_buffer_inverted 0 [validRow] (by decide)⟩

end RegencyFan
